import Mathlib

/-!
Verification of the note-comparison engine of the `audio-ai` repository
(`src/comparison.rs`).

Embedding conventions:
* `f32` arithmetic is modelled by exact rational arithmetic (`ℚ`).
* The transcendental primitives `f32::log2` and `f32::sqrt` have no exact
  rational counterpart, so every definition that needs them takes them as an
  explicit function parameter (`l2 : ℚ → ℚ`, `sq : ℚ → ℚ`).  Theorems either
  hold for every choice of these parameters or state the exact values they
  rely on (for example `l2 1 = 0`, which `f32::log2` satisfies exactly).
* `f32::round` rounds half away from zero; `x as i32` for the non-negative
  values appearing here truncates toward zero and saturates at `i32::MAX`.
* The strings `"{name} at {t:.2}s"` built by `find_note_differences` are
  modelled as `(note_name, start_time)` pairs; no claim depends on the
  rendered text, only on how many entries the lists have.
-/

namespace AudioAI

/-- Rounding of `f32::round`: round half away from zero. -/
def rustRound (q : ℚ) : ℤ :=
  if 0 ≤ q then ⌊q + 1/2⌋ else -⌊(1/2) - q⌋

/-- Cast `x as i32` for a non-negative rational: truncation toward zero,
saturating at `i32::MAX`. -/
def castI32 (q : ℚ) : ℤ :=
  min ⌊q⌋ (2 ^ 31 - 1)

/-- Model of `Iterator::min_by_key`: returns the first element attaining the
minimal key, `none` on an empty list. -/
def minByKey (key : α → ℤ) : List α → Option α :=
  List.foldl
    (fun acc x =>
      match acc with
      | none => some x
      | some b => if key x < key b then some x else acc)
    none

/-- Input record `AnalysisResult` (`src/audio_analysis.rs`); the comparison
engine reads only `pitch_hz` and `onsets`.  The unused `streaming` field is
omitted. -/
structure AnalysisResult where
  pitch_hz : List ℚ
  tempo_bpm : Option ℚ
  onsets : List ℚ
  spectral_centroid : List ℚ
deriving DecidableEq

/-- Output record `NoteSequence` of the segmenter. -/
structure NoteSequence where
  note_name : String
  midi_note : ℕ
  start_time : ℚ
  duration : ℚ
  avg_pitch_hz : ℚ
deriving DecidableEq

/-- Output record `RhythmPattern` of the rhythm analyzer. -/
structure RhythmPattern where
  onset_times : List ℚ
  inter_onset_intervals : List ℚ
  avg_interval : ℚ
  tempo_stability : ℚ
deriving DecidableEq

/-- Itemized pitch diagnostic. -/
structure PitchError where
  time : ℚ
  expected_note : String
  played_note : String
  cent_difference : ℚ
deriving DecidableEq

/-- Itemized timing diagnostic. -/
structure TimingError where
  note : String
  expected_time : ℚ
  played_time : ℚ
  ms_difference : ℚ
deriving DecidableEq

/-- Engine output `ComparisonMetrics`; the missed/extra note strings are kept
as `(note_name, start_time)` pairs. -/
structure ComparisonMetrics where
  pitch_accuracy : ℚ
  rhythm_accuracy : ℚ
  timing_accuracy : ℚ
  note_accuracy : ℚ
  overall_similarity : ℚ
  missed_notes : List (String × ℚ)
  extra_notes : List (String × ℚ)
  pitch_errors : List PitchError
  timing_errors : List TimingError
deriving DecidableEq

/-- Convert Hz to MIDI note number (`hz_to_midi`).  `l2` stands for
`f32::log2`. -/
def hz_to_midi (l2 : ℚ → ℚ) (hz : ℚ) : Option ℕ :=
  if hz ≤ 0 then none
  else
    let midi := rustRound (69 + 12 * l2 (hz / 440))
    if 0 ≤ midi ∧ midi ≤ 127 then some midi.toNat else none

/-- The 12-tone chromatic name table. -/
def note_names : List String :=
  [("C"), ("C#"), ("D"), ("D#"), ("E"), ("F"), ("F#"), ("G"), ("G#"), ("A"),
    ("A#"), ("B")]

/-- Convert MIDI note to note name (`midi_to_note_name`). -/
def midi_to_note_name (midi : ℕ) : String :=
  let octave : ℤ := (midi / 12 : ℕ) - 1
  let note_index : ℕ := midi % 12
  (note_names.getD note_index ("C")) ++ toString octave

/-- Convert Hz to note name (`hz_to_note_name`). -/
def hz_to_note_name (l2 : ℚ → ℚ) (hz : ℚ) : String :=
  match hz_to_midi l2 hz with
  | some midi => midi_to_note_name midi
  | none => ("N/A")

/-- Calculate cent difference between two frequencies
(`pitch_difference_cents`). -/
def pitch_difference_cents (l2 : ℚ → ℚ) (hz1 hz2 : ℚ) : ℚ :=
  if hz1 ≤ 0 ∨ hz2 ≤ 0 then 0
  else 1200 * l2 (hz2 / hz1)

/-- Segmenter state: `none` before any pitch is detected, otherwise the open
note's MIDI value (`current_midi`), its `current_start` time and the buffered
pitch samples (`current_pitches`). -/
abbrev SegState := Option (ℕ × ℚ × List ℚ)

/-- Build the emitted `NoteSequence` of a closed note: name and MIDI from the
pre-transition MIDI value, `avg_pitch_hz` the mean of the buffered samples. -/
def mkNote (midi : ℕ) (start endTime : ℚ) (pitches : List ℚ) : NoteSequence :=
  { note_name := midi_to_note_name midi
    midi_note := midi
    start_time := start
    duration := endTime - start
    avg_pitch_hz := pitches.sum / pitches.length }

/-- Main loop of `extract_note_sequence` over the enumerated pitch samples.
`times i` is the time of sample `i`; returns the final state and the notes
emitted inside the loop, in emission order. -/
def extractGo (l2 : ℚ → ℚ) (times : ℕ → ℚ) :
    List (ℕ × ℚ) → SegState → SegState × List NoteSequence
  | [], st => (st, [])
  | (i, pitch_hz) :: rest, st =>
    match hz_to_midi l2 pitch_hz, st with
    | none, _ => extractGo l2 times rest st
    | some midi_note, none =>
        extractGo l2 times rest (some (midi_note, times i, [pitch_hz]))
    | some midi_note, some (prev_midi, current_start, current_pitches) =>
        if ((midi_note : ℤ) - (prev_midi : ℤ)).natAbs ≤ 1 then
          extractGo l2 times rest
            (some (prev_midi, current_start, current_pitches ++ [pitch_hz]))
        else
          let time := times i
          let r := extractGo l2 times rest (some (midi_note, time, [pitch_hz]))
          if 1/10 ≤ time - current_start then
            (r.1, mkNote prev_midi current_start time current_pitches :: r.2)
          else r

/-- Per-sample time of `extract_note_sequence`: `onsets[i]`, or the synthesized
fallback `i * 0.01` when the onset list is shorter than the pitch list. -/
def sampleTime (analysis : AnalysisResult) (i : ℕ) : ℚ :=
  (analysis.onsets.get? i).getD ((i : ℚ) * (1/100))

/-- Extract note sequences from pitch data with onset information
(`extract_note_sequence`), including the final flush against the last onset
timestamp. -/
def extract_note_sequence (l2 : ℚ → ℚ) (analysis : AnalysisResult) :
    List NoteSequence :=
  if analysis.pitch_hz = [] ∨ analysis.onsets = [] then []
  else
    let r := extractGo l2 (sampleTime analysis) analysis.pitch_hz.enum none
    match r.1, analysis.onsets.getLast? with
    | some (midi_note, current_start, current_pitches), some last_time =>
        if 1/10 ≤ last_time - current_start ∧ current_pitches ≠ [] then
          r.2 ++ [mkNote midi_note current_start last_time current_pitches]
        else r.2
    | _, _ => r.2

/-- Adjacent differences `windows(2).map(|w| w[1] - w[0])`. -/
def interOnsetIntervals : List ℚ → List ℚ
  | a :: b :: rest => (b - a) :: interOnsetIntervals (b :: rest)
  | _ => []

/-- Extract rhythm pattern from onset data (`extract_rhythm_pattern`).  `sq`
stands for `f32::sqrt`. -/
def extract_rhythm_pattern (sq : ℚ → ℚ) (analysis : AnalysisResult) :
    RhythmPattern :=
  let onset_times := analysis.onsets
  let intervals := interOnsetIntervals onset_times
  let avg_interval :=
    if intervals ≠ [] then intervals.sum / intervals.length else 0
  let tempo_stability :=
    if 0 < avg_interval ∧ 1 < intervals.length then
      let variance :=
        (intervals.map (fun x => ((x - avg_interval) ^ 2 : ℚ))).sum /
          intervals.length
      let std_dev := sq variance
      let cv := std_dev / avg_interval
      min (1 / (1 + cv)) 1
    else 0
  { onset_times := onset_times
    inter_onset_intervals := intervals
    avg_interval := avg_interval
    tempo_stability := tempo_stability }

/-- Millisecond key of the nearest-note search:
`((p.start_time - ref.start_time).abs() * 1000.0) as i32`. -/
def msKey (ref p : NoteSequence) : ℤ :=
  castI32 (|p.start_time - ref.start_time| * 1000)

/-- Nearest-in-time played note for a reference note, as selected by
`player.iter().min_by_key(...)` in `compare_note_sequences` and
`compare_timing`. -/
def closestPlayed (player : List NoteSequence) (ref : NoteSequence) :
    Option NoteSequence :=
  minByKey (msKey ref) player

/-- Loop body of `compare_note_sequences`: the matched-note count and the
pitch-error list accumulated over the reference notes. -/
def notesLoop (l2 : ℚ → ℚ) (player : List NoteSequence) :
    List NoteSequence → ℕ × List PitchError
  | [] => (0, [])
  | ref_note :: rest =>
    let r := notesLoop l2 player rest
    match closestPlayed player ref_note with
    | some player_note =>
        if |player_note.start_time - ref_note.start_time| ≤ 1/2 then
          let cent_diff :=
            pitch_difference_cents l2 ref_note.avg_pitch_hz
              player_note.avg_pitch_hz
          if |cent_diff| ≤ 50 then (r.1 + 1, r.2)
          else
            (r.1,
              { time := ref_note.start_time
                expected_note := ref_note.note_name
                played_note := player_note.note_name
                cent_difference := cent_diff } :: r.2)
        else r
    | none => r

/-- Compare two note sequences (`compare_note_sequences`): note accuracy and
itemized pitch errors. -/
def compare_note_sequences (l2 : ℚ → ℚ)
    (reference player : List NoteSequence) : ℚ × List PitchError :=
  if reference = [] ∨ player = [] then (0, [])
  else
    let r := notesLoop l2 player reference
    ((r.1 : ℚ) / reference.length, r.2)

/-- Loop body of `compare_timing`: the accumulated total timing error and the
timing-error list over the reference notes. -/
def timingLoop (player : List NoteSequence) :
    List NoteSequence → ℚ × List TimingError
  | [] => (0, [])
  | ref_note :: rest =>
    let r := timingLoop player rest
    match closestPlayed player ref_note with
    | some player_note =>
        let time_diff := |player_note.start_time - ref_note.start_time|
        if time_diff ≤ 1/2 then
          if 1/20 < time_diff then
            (r.1 + time_diff,
              { note := ref_note.note_name
                expected_time := ref_note.start_time
                played_time := player_note.start_time
                ms_difference := time_diff * 1000 } :: r.2)
          else (r.1 + time_diff, r.2)
        else r
    | none => r

/-- Compare timing (`compare_timing`): timing accuracy on a 0–1 scale and
itemized timing errors. -/
def compare_timing (reference player : List NoteSequence) :
    ℚ × List TimingError :=
  if reference = [] ∨ player = [] then (0, [])
  else
    let r := timingLoop player reference
    let avg_error := r.1 / reference.length
    (max (1 - avg_error / (1/2)) 0, r.2)

/-- Compare rhythm patterns (`compare_rhythm`). -/
def compare_rhythm (reference player : RhythmPattern) : ℚ :=
  if reference.inter_onset_intervals = [] ∨
      player.inter_onset_intervals = [] then 0
  else
    let tempo_diff := |reference.avg_interval - player.avg_interval|
    let tempo_similarity :=
      max (1 - tempo_diff / max reference.avg_interval (1/10)) 0
    let stability_similarity :=
      1 - |reference.tempo_stability - player.tempo_stability|
    6/10 * tempo_similarity + 4/10 * stability_similarity

/-- Pitch accuracy from the pitch-error list (`calculate_pitch_accuracy`). -/
def calculate_pitch_accuracy (pitch_errors : List PitchError) : ℚ :=
  if pitch_errors = [] then 1
  else
    let avg_cents :=
      (pitch_errors.map (fun e => |e.cent_difference|)).sum /
        pitch_errors.length
    max (1 - avg_cents / 100) 0

/-- Missed and extra notes (`find_note_differences`); each entry stands for
the formatted string `"{name} at {t:.2}s"`. -/
def find_note_differences (reference player : List NoteSequence) :
    List (String × ℚ) × List (String × ℚ) :=
  let missed_notes :=
    (reference.filter (fun ref_note =>
      ¬ player.any (fun p =>
        |p.start_time - ref_note.start_time| ≤ 1/2 ∧
          p.note_name = ref_note.note_name))).map
      (fun ref_note => (ref_note.note_name, ref_note.start_time))
  let extra_notes :=
    (player.filter (fun player_note =>
      ¬ reference.any (fun r =>
        |r.start_time - player_note.start_time| ≤ 1/2 ∧
          r.note_name = player_note.note_name))).map
      (fun player_note => (player_note.note_name, player_note.start_time))
  (missed_notes, extra_notes)

/-- Compare two recordings and generate detailed metrics
(`compare_recordings`). -/
def compare_recordings (l2 sq : ℚ → ℚ) (reference player : AnalysisResult) :
    ComparisonMetrics :=
  let ref_notes := extract_note_sequence l2 reference
  let player_notes := extract_note_sequence l2 player
  let ref_rhythm := extract_rhythm_pattern sq reference
  let player_rhythm := extract_rhythm_pattern sq player
  let na := compare_note_sequences l2 ref_notes player_notes
  let ta := compare_timing ref_notes player_notes
  let rhythm_accuracy := compare_rhythm ref_rhythm player_rhythm
  let pitch_accuracy := calculate_pitch_accuracy na.2
  let diffs := find_note_differences ref_notes player_notes
  let overall_similarity :=
    3/10 * na.1 + 25/100 * pitch_accuracy + 25/100 * ta.1 +
      2/10 * rhythm_accuracy
  { pitch_accuracy := pitch_accuracy
    rhythm_accuracy := rhythm_accuracy
    timing_accuracy := ta.1
    note_accuracy := na.1
    overall_similarity := overall_similarity
    missed_notes := diffs.1
    extra_notes := diffs.2
    pitch_errors := na.2
    timing_errors := ta.2 }

/-- Specification-side description (§4.4) of the timing contribution of one
reference note: the absolute time difference to its accepted nearest match,
`0` when no match is accepted. -/
def timingContribution (player : List NoteSequence) (ref_note : NoteSequence) :
    ℚ :=
  match closestPlayed player ref_note with
  | some p =>
      if |p.start_time - ref_note.start_time| ≤ 1/2 then
        |p.start_time - ref_note.start_time|
      else 0
  | none => 0

/-- Specification-side description (§4.4) of the timing error recorded for one
reference note: present exactly when the accepted match is more than 50 ms
off. -/
def timingErrOf (player : List NoteSequence) (ref_note : NoteSequence) :
    Option TimingError :=
  match closestPlayed player ref_note with
  | some p =>
      if |p.start_time - ref_note.start_time| ≤ 1/2 ∧
          1/20 < |p.start_time - ref_note.start_time| then
        some { note := ref_note.note_name
               expected_time := ref_note.start_time
               played_time := p.start_time
               ms_difference := |p.start_time - ref_note.start_time| * 1000 }
      else none
  | none => none

/-- Separation of segmenter output: a later note starts at least the 100 ms
minimum duration after an earlier one. -/
def sep (a b : NoteSequence) : Prop :=
  a.start_time + 1/10 ≤ b.start_time

/-- Trivial stand-in for `f32::log2` used where a theorem holds for every
choice of the logarithm (it satisfies `l20 1 = 0` exactly as `f32::log2`
does). -/
def l20 : ℚ → ℚ := fun _ => 0

/-- Trivial stand-in for `f32::sqrt`; non-negative on non-negative inputs and
`sq0 0 = 0`, exactly as `f32::sqrt`. -/
def sq0 : ℚ → ℚ := fun _ => 0

/-- Analysis with no data at all. -/
def emptyA : AnalysisResult :=
  { pitch_hz := [], tempo_bpm := none, onsets := [], spectral_centroid := [] }

/-- Analysis holding a single sustained A4 note over sorted onsets. -/
def goodA : AnalysisResult :=
  { pitch_hz := [440, 440, 440]
    tempo_bpm := none
    onsets := [0, 1/2, 1]
    spectral_centroid := [] }

/-- The single note extracted from `goodA`. -/
def goodNote : NoteSequence :=
  { note_name := "A4", midi_note := 69, start_time := 0, duration := 1
    avg_pitch_hz := 440 }

/-- Analysis with ten onsets spaced exactly half a second apart. -/
def evenA : AnalysisResult :=
  { pitch_hz := [440]
    tempo_bpm := none
    onsets := [0, 1/2, 1, 3/2, 2, 5/2, 3, 7/2, 4, 9/2]
    spectral_centroid := [] }

/-- Rational lookup agreeing with `f32::log2` (to within `2·10⁻⁴`) on the two
ratios the segmenter consults for `cexA`: `log2(466/440) ≈ 0.08284` and
`log2(463.4/440) ≈ 0.07476`; elsewhere `0`, in particular at `1`. -/
def l2c3 : ℚ → ℚ := fun q =>
  if q = 233/220 then 83/1000
  else if q = 2317/2200 then 7476/100000 else 0

/-- Analysis opening a note at 440 Hz (MIDI 69) and then sustaining 466 Hz
(MIDI 70, one semitone up, within the segmenter's tolerance) for nine more
samples. -/
def cexA : AnalysisResult :=
  { pitch_hz := [440, 466, 466, 466, 466, 466, 466, 466, 466, 466]
    tempo_bpm := none
    onsets := [0, 1/10, 2/10, 3/10, 4/10, 5/10, 6/10, 7/10, 8/10, 9/10]
    spectral_centroid := [] }

/-- The single note the segmenter emits for `cexA`: MIDI 69 from the
pre-transition value, but an average pitch of 463.4 Hz whose MIDI value is
70. -/
def cexNote3 : NoteSequence :=
  { note_name := "A4", midi_note := 69, start_time := 0, duration := 9/10
    avg_pitch_hz := 2317/5 }

/-- Rational lookup agreeing exactly with `f32::log2` on every ratio consulted
for `cexB`: `log2 2 = 1`, `log2 4 = 2`, `log2 (1/4) = -2`, and `log2 1 = 0`
(the default branch). -/
def l2c6 : ℚ → ℚ := fun q =>
  if q = 2 then 1 else if q = 4 then 2 else if q = 1/4 then -2 else 0

/-- Analysis whose onset list is not sorted: time runs backwards by half a
millisecond at the fourth sample, so the segmenter emits two notes whose
start times differ by less than one millisecond. -/
def cexB : AnalysisResult :=
  { pitch_hz := [440, 440, 880, 1760]
    tempo_bpm := none
    onsets := [0, 1/2, 1/2, 1/2000, 1/2]
    spectral_centroid := [] }

/-- First note the segmenter emits for `cexB`. -/
def noteB1 : NoteSequence :=
  { note_name := "A4", midi_note := 69, start_time := 0, duration := 1/2
    avg_pitch_hz := 440 }

/-- Second note the segmenter emits for `cexB`; it starts only half a
millisecond after `noteB1` because the onset list runs backwards. -/
def noteB2 : NoteSequence :=
  { note_name := "A6", midi_note := 93, start_time := 1/2000
    duration := 999/2000, avg_pitch_hz := 1760 }

/-- Reference note at time zero. -/
def refN : NoteSequence :=
  { note_name := "A4", midi_note := 69, start_time := 0, duration := 1
    avg_pitch_hz := 440 }

/-- Played note 1.9 ms late: millisecond key `1`. -/
def playN1 : NoteSequence :=
  { note_name := "A4", midi_note := 69, start_time := 19/10000, duration := 1
    avg_pitch_hz := 440 }

/-- Played note 1.1 ms late: strictly closer than `playN1`, but the same
millisecond key `1`. -/
def playN2 : NoteSequence :=
  { note_name := "A4", midi_note := 69, start_time := 11/10000, duration := 1
    avg_pitch_hz := 440 }

/-- Played note a full second late: outside the 500 ms matching window. -/
def playFar : NoteSequence :=
  { note_name := "A4", midi_note := 69, start_time := 1, duration := 1
    avg_pitch_hz := 440 }

/-- Folding the best-so-far step from `some b` keeps `b` when nothing beats it
strictly, and otherwise returns the first strict improvement chain's last
winner: the witness decomposition below. -/
theorem foldl_minByKey_spec {α : Type} (key : α → ℤ) (l : List α) (b x : α)
    (h : List.foldl
        (fun acc y =>
          match acc with
          | none => some y
          | some c => if key y < key c then some y else acc)
        (some b) l = some x) :
    (x = b ∧ ∀ q ∈ l, key b ≤ key q) ∨
    (∃ l₁ l₂, l = l₁ ++ x :: l₂ ∧ key x < key b ∧
      (∀ q ∈ l₁, key x < key q) ∧ (∀ q ∈ l₂, key x ≤ key q)) := by
  induction l generalizing b with
  | nil =>
    left
    simp only [List.foldl_nil, Option.some.injEq] at h
    exact ⟨h.symm, by simp⟩
  | cons a t ih =>
    simp only [List.foldl_cons] at h
    by_cases hab : key a < key b
    · rw [if_pos hab] at h
      rcases ih a h with ⟨rfl, hall⟩ | ⟨t₁, t₂, rfl, hxa, h₁, h₂⟩
      · right
        exact ⟨[], t, rfl, hab, by simp, hall⟩
      · right
        refine ⟨a :: t₁, t₂, rfl, lt_trans hxa hab, ?_, h₂⟩
        intro q hq
        rcases List.mem_cons.mp hq with rfl | hq
        · exact hxa
        · exact h₁ q hq
    · rw [if_neg hab] at h
      push_neg at hab
      rcases ih b h with ⟨rfl, hall⟩ | ⟨t₁, t₂, rfl, hxb, h₁, h₂⟩
      · left
        refine ⟨rfl, ?_⟩
        intro q hq
        rcases List.mem_cons.mp hq with rfl | hq
        · exact hab
        · exact hall q hq
      · right
        refine ⟨a :: t₁, t₂, rfl, hxb, ?_, h₂⟩
        intro q hq
        rcases List.mem_cons.mp hq with rfl | hq
        · exact lt_of_lt_of_le hxb hab
        · exact h₁ q hq

/-- Decomposition property of `minByKey`: the selected element is the first
one attaining the minimal key. -/
theorem minByKey_first_min {α : Type} (key : α → ℤ) (l : List α) (x : α)
    (h : minByKey key l = some x) :
    ∃ l₁ l₂, l = l₁ ++ x :: l₂ ∧
      (∀ q ∈ l₁, key x < key q) ∧ (∀ q ∈ l₂, key x ≤ key q) := by
  cases l with
  | nil => simp [minByKey] at h
  | cons a t =>
    have h' : List.foldl
        (fun acc y =>
          match acc with
          | none => some y
          | some c => if key y < key c then some y else acc)
        (some a) t = some x := h
    rcases foldl_minByKey_spec key t a x h' with ⟨rfl, hall⟩ |
      ⟨t₁, t₂, rfl, hxa, h₁, h₂⟩
    · exact ⟨[], t, rfl, by simp, hall⟩
    · refine ⟨a :: t₁, t₂, rfl, ?_, h₂⟩
      intro q hq
      rcases List.mem_cons.mp hq with rfl | hq
      · exact hxa
      · exact h₁ q hq

/-- Membership of the `minByKey` result. -/
theorem minByKey_mem {α : Type} (key : α → ℤ) (l : List α) (x : α)
    (h : minByKey key l = some x) : x ∈ l := by
  obtain ⟨l₁, l₂, rfl, -, -⟩ := minByKey_first_min key l x h
  simp

/-- Minimality of the `minByKey` result. -/
theorem minByKey_min {α : Type} (key : α → ℤ) (l : List α) (x : α)
    (h : minByKey key l = some x) : ∀ q ∈ l, key x ≤ key q := by
  obtain ⟨l₁, l₂, rfl, h₁, h₂⟩ := minByKey_first_min key l x h
  intro q hq
  rcases List.mem_append.mp hq with hq | hq
  · exact le_of_lt (h₁ q hq)
  · rcases List.mem_cons.mp hq with rfl | hq
    · exact le_rfl
    · exact h₂ q hq

/-- Folding the best-so-far step from `some b` always yields a value. -/
theorem foldl_minByKey_isSome {α : Type} (key : α → ℤ) (l : List α) (b : α) :
    ∃ x, List.foldl
        (fun acc y =>
          match acc with
          | none => some y
          | some c => if key y < key c then some y else acc)
        (some b) l = some x := by
  induction l generalizing b with
  | nil => exact ⟨b, rfl⟩
  | cons c t ih =>
    simp only [List.foldl_cons]
    by_cases hcb : key c < key b
    · rw [if_pos hcb]; exact ih c
    · rw [if_neg hcb]; exact ih b

/-- On a non-empty list `minByKey` returns a value. -/
theorem minByKey_isSome {α : Type} (key : α → ℤ) (l : List α) (hl : l ≠ []) :
    ∃ x, minByKey key l = some x := by
  match l, hl with
  | b :: ts, _ => exact foldl_minByKey_isSome key ts b

/-- C8: `hz_to_midi` rounds `69 + 12·log2(hz/440)` half away from zero,
returns `none` exactly when the input is non-positive or the rounded result
leaves `[0,127]`, and maps 440 Hz to MIDI 69 whenever the logarithm primitive
sends `1` to `0` (as `f32::log2` does exactly). -/
theorem hz_to_midi_spec (l2 : ℚ → ℚ) (hz : ℚ) :
    hz_to_midi l2 hz =
      (if 0 < hz ∧ 0 ≤ rustRound (69 + 12 * l2 (hz / 440)) ∧
          rustRound (69 + 12 * l2 (hz / 440)) ≤ 127 then
        some (rustRound (69 + 12 * l2 (hz / 440))).toNat
      else none) ∧
    (l2 1 = 0 → hz_to_midi l2 440 = some 69) := by
  constructor
  · by_cases h : hz ≤ 0
    · simp [hz_to_midi, h, not_lt.mpr h]
    · have h' : 0 < hz := not_le.mp h
      simp [hz_to_midi, h, h']
  · intro h1
    have h440 : (440 : ℚ) / 440 = 1 := by norm_num
    simp [hz_to_midi, h440, h1, rustRound]
    norm_num
    rfl

/-- Witness for C8 at the concrete input 440 Hz. -/
theorem hz_to_midi_spec_witness : hz_to_midi l20 440 = some 69 :=
  (hz_to_midi_spec l20 440).2 rfl

/-- C9: for every MIDI number up to 127, `midi_to_note_name` maps `midi % 12`
through the chromatic name table with octave `midi / 12 - 1`; in particular
69 ↦ "A4" and 60 ↦ "C4". -/
theorem midi_to_note_name_spec :
    (∀ m : ℕ, m < 128 →
        midi_to_note_name m =
          note_names.getD (m % 12) ("C") ++ toString ((m / 12 : ℕ) - 1 : ℤ)) ∧
    midi_to_note_name 69 = "A4" ∧ midi_to_note_name 60 = "C4" := by
  refine ⟨?_, by decide, by decide⟩
  intro m _
  rfl

/-- Witness for C9 at the concrete inputs 69 and 60. -/
theorem midi_to_note_name_spec_witness :
    midi_to_note_name 69 =
      note_names.getD (69 % 12) ("C") ++ toString ((69 / 12 : ℕ) - 1 : ℤ) ∧
    midi_to_note_name 60 = "C4" :=
  ⟨midi_to_note_name_spec.1 69 (by decide), midi_to_note_name_spec.2.2⟩

/-- C1 counterexample: on two completely empty analyses both extracted note
sequences are empty, yet `pitch_accuracy` is the defined value `1.0`, not the
claimed `0.0` (the pitch-error list is empty, and
`calculate_pitch_accuracy` maps an empty error list to `1.0`). -/
theorem empty_inputs_pitch_accuracy_cex :
    extract_note_sequence l20 emptyA = [] ∧
    (compare_recordings l20 sq0 emptyA emptyA).pitch_accuracy = 1 ∧
    (compare_recordings l20 sq0 emptyA emptyA).pitch_accuracy ≠ 0 := by
  have h2 : (compare_recordings l20 sq0 emptyA emptyA).pitch_accuracy = 1 :=
    rfl
  exact ⟨rfl, h2, by rw [h2]; norm_num⟩

/-- C3 counterexample: segmenting `cexA` emits exactly one note whose stored
MIDI number is the pre-transition value 69, while converting its average
pitch (463.4 Hz) back through `hz_to_midi` yields 70, so the claimed
invariant `hz_to_midi (avg_pitch_hz) = some midi_note` fails. -/
theorem note_invariant_cex :
    extract_note_sequence l2c3 cexA = [cexNote3] ∧
    cexNote3.midi_note = 69 ∧
    hz_to_midi l2c3 cexNote3.avg_pitch_hz = some 70 ∧
    hz_to_midi l2c3 cexNote3.avg_pitch_hz ≠ some cexNote3.midi_note := by
  have hmid : hz_to_midi l2c3 cexNote3.avg_pitch_hz = some 70 := by
    norm_num [hz_to_midi, rustRound, l2c3, cexNote3, Int.floor_eq_iff]
    decide
  refine ⟨?_, rfl, hmid, by rw [hmid]; decide⟩
  norm_num [extract_note_sequence, extractGo, sampleTime, mkNote, hz_to_midi,
    rustRound, midi_to_note_name, note_names, l2c3, cexA, cexNote3,
    Int.floor_eq_iff, List.enum, List.enumFrom, List.getD,
    List.cons_ne_nil, Int.toNat_ofNat]
  decide

/-- C4 counterexample: with the reference note at time 0 and played notes 1.9
ms and 1.1 ms late, both candidates truncate to the same millisecond key `1`,
so the engine selects the first (1.9 ms) even though the second is strictly
closer in absolute terms and no exact tie exists; both lie well inside the
500 ms window. -/
theorem closest_played_cex :
    closestPlayed [playN1, playN2] refN = some playN1 ∧
    |playN2.start_time - refN.start_time| <
      |playN1.start_time - refN.start_time| ∧
    |playN1.start_time - refN.start_time| ≤ 1/2 ∧
    playN1 ≠ playN2 := by
  refine ⟨?_, ?_, ?_, ?_⟩
  · norm_num [closestPlayed, minByKey, msKey, castI32, playN1, playN2, refN,
      min_def, Int.floor_eq_iff, abs_of_nonneg]
  · norm_num [playN1, playN2, refN, abs_of_nonneg]
  · norm_num [playN1, refN, abs_of_nonneg]
  · simp only [playN1, playN2, ne_eq, NoteSequence.mk.injEq]
    norm_num

/-- C6 counterexample: `cexB` has two extracted notes and five onsets, yet
comparing it against itself scores `overall_similarity = 4799/8000 ≈ 0.6`,
far below the claimed `0.95` — the two notes start within half a millisecond
of each other (the onset list is unsorted), so the second reference note is
matched against the first played note, a two-octave pitch error. -/
theorem self_comparison_cex :
    (extract_note_sequence l2c6 cexB).length = 2 ∧
    2 ≤ cexB.onsets.length ∧
    (compare_recordings l2c6 sq0 cexB cexB).overall_similarity = 4799/8000 ∧
    ¬(19/20 < (compare_recordings l2c6 sq0 cexB cexB).overall_similarity) ∧
    (compare_recordings l2c6 sq0 cexB cexB).missed_notes = [] ∧
    (compare_recordings l2c6 sq0 cexB cexB).extra_notes = [] := by
  have hn : extract_note_sequence l2c6 cexB = [noteB1, noteB2] := by
    norm_num [extract_note_sequence, extractGo, sampleTime, mkNote,
      hz_to_midi, rustRound, midi_to_note_name, note_names, l2c6, cexB,
      Int.floor_eq_iff, List.enum, List.enumFrom, List.getD,
      List.cons_ne_nil, Int.toNat_ofNat, noteB1, noteB2]
    decide
  have honsets : cexB.onsets = [0, 1/2, 1/2, 1/2000, 1/2] := rfl
  have hov : (compare_recordings l2c6 sq0 cexB cexB).overall_similarity =
      4799/8000 := by
    norm_num [compare_recordings, hn, noteB1, noteB2, sq0, honsets,
      compare_note_sequences, notesLoop, closestPlayed, minByKey, msKey,
      castI32, pitch_difference_cents, l2c6, compare_timing, timingLoop,
      compare_rhythm, calculate_pitch_accuracy, find_note_differences,
      extract_rhythm_pattern, interOnsetIntervals, min_def, max_def,
      Int.floor_eq_iff, abs_of_nonneg, abs_of_nonpos, List.cons_ne_nil]
  refine ⟨by rw [hn]; rfl, by norm_num [cexB], hov, by rw [hov]; norm_num,
    ?_, ?_⟩ <;>
    norm_num [compare_recordings, hn, noteB1, noteB2,
      find_note_differences, abs_of_nonneg, abs_of_nonpos]

/-- C4 (amended): the matching step selects the first played note minimizing
the millisecond-truncated key `min(⌊|start_time gap|·1000⌋, 2³¹-1)` — every
earlier note has a strictly larger key and every later note a larger-or-equal
one.  Exact ties in absolute time difference are therefore broken by first
occurrence, but closeness is compared only at whole-millisecond
granularity. -/
theorem closest_played_spec (ref p : NoteSequence)
    (player : List NoteSequence) (h : closestPlayed player ref = some p) :
    ∃ l₁ l₂, player = l₁ ++ p :: l₂ ∧
      (∀ q ∈ l₁, msKey ref p < msKey ref q) ∧
      (∀ q ∈ l₂, msKey ref p ≤ msKey ref q) :=
  minByKey_first_min (msKey ref) player p h

/-- Witness for C4 (amended) at the concrete `playN1`/`playN2` pair. -/
theorem closest_played_spec_witness :
    ∃ l₁ l₂, ([playN1, playN2] : List NoteSequence) = l₁ ++ playN1 :: l₂ ∧
      (∀ q ∈ l₁, msKey refN playN1 < msKey refN q) ∧
      (∀ q ∈ l₂, msKey refN playN1 ≤ msKey refN q) :=
  closest_played_spec refN playN1 [playN1, playN2]
    (by
      norm_num [closestPlayed, minByKey, msKey, castI32, playN1, playN2,
        refN, min_def, Int.floor_eq_iff, abs_of_nonneg])

/-- Decomposition of `timingLoop` into the specification-side sum and
filter. -/
theorem timingLoop_eq (player refs : List NoteSequence) :
    timingLoop player refs =
      ((refs.map (timingContribution player)).sum,
        refs.filterMap (timingErrOf player)) := by
  induction refs with
  | nil => rfl
  | cons r rest ih =>
    cases hc : closestPlayed player r with
    | none => simp [timingLoop, timingContribution, timingErrOf, hc, ih]
    | some p =>
      by_cases h1 : |p.start_time - r.start_time| ≤ 1/2
      · by_cases h2 : 1/20 < |p.start_time - r.start_time|
        · simp only [timingLoop, timingContribution, timingErrOf, hc,
            List.map_cons, List.sum_cons, List.filterMap_cons, ih,
            if_pos h1, if_pos h2,
            if_pos (show |p.start_time - r.start_time| ≤ 1/2 ∧
              1/20 < |p.start_time - r.start_time| from ⟨h1, h2⟩),
            Prod.mk.injEq]
          exact ⟨by ring, trivial⟩
        · simp only [timingLoop, timingContribution, timingErrOf, hc,
            List.map_cons, List.sum_cons, List.filterMap_cons, ih,
            if_pos h1, if_neg h2,
            if_neg (show ¬(|p.start_time - r.start_time| ≤ 1/2 ∧
              1/20 < |p.start_time - r.start_time|) from fun hx => h2 hx.2),
            Prod.mk.injEq]
          exact ⟨by ring, trivial⟩
      · simp only [timingLoop, timingContribution, timingErrOf, hc,
          List.map_cons, List.sum_cons, List.filterMap_cons, ih,
          if_neg h1,
          if_neg (show ¬(|p.start_time - r.start_time| ≤ 1/2 ∧
            1/20 < |p.start_time - r.start_time|) from fun hx => h1 hx.1),
          Prod.mk.injEq]
        exact ⟨by ring, trivial⟩

/-- C5: `compare_timing` accumulates `|time_diff|` exactly over the reference
notes with an accepted match (gap ≤ 500 ms), records a `TimingError` exactly
for those accepted matches that are more than 50 ms off, and returns
`max(0, 1 - (mean |time_diff|)/500ms)` with the mean taken over all reference
notes; either input empty gives `(0, [])`. -/
theorem compare_timing_spec (reference player : List NoteSequence) :
    (reference ≠ [] → player ≠ [] →
      compare_timing reference player =
        (max (1 - (reference.map (timingContribution player)).sum /
            reference.length / (1/2)) 0,
          reference.filterMap (timingErrOf player))) ∧
    (reference = [] ∨ player = [] →
      compare_timing reference player = (0, [])) := by
  constructor
  · intro h1 h2
    unfold compare_timing
    rw [if_neg (by simp [h1, h2]), timingLoop_eq]
  · intro h
    unfold compare_timing
    rw [if_pos h]

/-- Witness for C5 at one reference note and one played note 1.9 ms late. -/
theorem compare_timing_spec_witness :
    compare_timing [refN] [playN1] =
      (max (1 - ([refN].map (timingContribution [playN1])).sum /
          ([refN] : List NoteSequence).length / (1/2)) 0,
        [refN].filterMap (timingErrOf [playN1])) :=
  (compare_timing_spec [refN] [playN1]).1 (by simp) (by simp)

/-- C10: when both sequences are non-empty but every played note is more than
500 ms away from every reference note, no contribution and no error is
accumulated, and `compare_timing` returns accuracy `1.0` with an empty error
list. -/
theorem compare_timing_no_accepted_match
    (reference player : List NoteSequence)
    (h1 : reference ≠ []) (h2 : player ≠ [])
    (h : ∀ r ∈ reference, ∀ p ∈ player,
      1/2 < |p.start_time - r.start_time|) :
    compare_timing reference player = (1, []) := by
  have hloop : ∀ refs : List NoteSequence,
      (∀ r ∈ refs, ∀ p ∈ player, 1/2 < |p.start_time - r.start_time|) →
      timingLoop player refs = (0, []) := by
    intro refs
    induction refs with
    | nil => intro _; rfl
    | cons r rest ih =>
      intro hrefs
      have hrest := ih (fun a ha p hp => hrefs a (List.mem_cons_of_mem r ha) p hp)
      simp only [timingLoop, hrest]
      cases hc : closestPlayed player r with
      | none => rfl
      | some p =>
        have hp : p ∈ player := minByKey_mem _ _ _ hc
        have hfar := hrefs r (List.mem_cons_self r rest) p hp
        simp only [if_neg (not_le.mpr hfar)]
  unfold compare_timing
  rw [if_neg (by simp [h1, h2]), hloop reference h]
  norm_num

/-- Witness for C10: one reference note at 0 s, one played note a full second
late. -/
theorem compare_timing_no_accepted_match_witness :
    compare_timing [refN] [playFar] = (1, []) :=
  compare_timing_no_accepted_match [refN] [playFar] (by simp) (by simp)
    (by
      intro r hr p hp
      simp only [List.mem_singleton] at hr hp
      subst hr; subst hp
      norm_num [refN, playFar])

/-- C7: `tempo_stability` equals `min(1, 1/(1+cv))` with
`cv = stddev/avg_interval` exactly when at least two inter-onset intervals
exist and the average interval is positive, and is `0` otherwise; an input
with no onsets yields `0`, and perfectly regular spacing yields `1` (using
`sq 0 = 0`, exact for `f32::sqrt`). -/
theorem tempo_stability_spec (sq : ℚ → ℚ) (a : AnalysisResult)
    (r : RhythmPattern) (hr : r = extract_rhythm_pattern sq a) :
    (2 ≤ r.inter_onset_intervals.length ∧ 0 < r.avg_interval →
      r.tempo_stability =
        min 1 (1 / (1 + sq ((r.inter_onset_intervals.map
            (fun x => ((x - r.avg_interval) ^ 2 : ℚ))).sum /
              r.inter_onset_intervals.length) / r.avg_interval))) ∧
    (¬(2 ≤ r.inter_onset_intervals.length ∧ 0 < r.avg_interval) →
      r.tempo_stability = 0) ∧
    (a.onsets = [] → r.tempo_stability = 0) ∧
    (∀ (k : ℕ) (c : ℚ), sq 0 = 0 → 2 ≤ k → 0 < c →
      interOnsetIntervals a.onsets = List.replicate k c →
      r.tempo_stability = 1) := by
  subst hr
  have hfields :
      (extract_rhythm_pattern sq a).inter_onset_intervals =
        interOnsetIntervals a.onsets ∧
      (extract_rhythm_pattern sq a).avg_interval =
        (if interOnsetIntervals a.onsets ≠ [] then
          (interOnsetIntervals a.onsets).sum /
            (interOnsetIntervals a.onsets).length
        else 0) := ⟨rfl, rfl⟩
  obtain ⟨hint, havg⟩ := hfields
  refine ⟨?_, ?_, ?_, ?_⟩
  · intro ⟨hlen, hpos⟩
    rw [hint] at hlen
    rw [havg] at hpos ⊢
    rw [hint]
    have hcond : 0 < (if interOnsetIntervals a.onsets ≠ [] then
        (interOnsetIntervals a.onsets).sum /
          (interOnsetIntervals a.onsets).length else 0) ∧
        1 < (interOnsetIntervals a.onsets).length := ⟨hpos, by omega⟩
    show (if _ ∧ _ then _ else _) = _
    rw [if_pos hcond, min_comm]
  · intro hneg
    rw [hint, havg] at hneg
    have : ¬(0 < (if interOnsetIntervals a.onsets ≠ [] then
        (interOnsetIntervals a.onsets).sum /
          (interOnsetIntervals a.onsets).length else 0) ∧
        1 < (interOnsetIntervals a.onsets).length) := by
      intro ⟨h1, h2⟩
      exact hneg ⟨by omega, h1⟩
    show (if _ ∧ _ then _ else _) = _
    rw [if_neg this]
  · intro hnil
    have hi : interOnsetIntervals a.onsets = [] := by rw [hnil]; rfl
    have : ¬(0 < (if interOnsetIntervals a.onsets ≠ [] then
        (interOnsetIntervals a.onsets).sum /
          (interOnsetIntervals a.onsets).length else 0) ∧
        1 < (interOnsetIntervals a.onsets).length) := by
      rw [hi]
      simp
    show (if _ ∧ _ then _ else _) = _
    rw [if_neg this]
  · intro k c hsq hk hc hrep
    have hne : interOnsetIntervals a.onsets ≠ [] := by
      rw [hrep]
      exact List.ne_nil_of_length_pos (by simpa using by omega)
    have hsum : (interOnsetIntervals a.onsets).sum = k * c := by
      rw [hrep]
      simp [List.sum_replicate, nsmul_eq_mul]
    have hlenr : ((interOnsetIntervals a.onsets).length : ℚ) = k := by
      rw [hrep]; simp
    have hkq : (0 : ℚ) < k := by
      have : (2 : ℚ) ≤ k := by exact_mod_cast hk
      linarith
    have havg' : (if interOnsetIntervals a.onsets ≠ [] then
        (interOnsetIntervals a.onsets).sum /
          (interOnsetIntervals a.onsets).length else 0) = c := by
      rw [if_pos hne, hsum, hlenr]
      field_simp
    have hvar : ((interOnsetIntervals a.onsets).map
        (fun x => ((x - c) ^ 2 : ℚ))).sum = 0 := by
      rw [hrep]
      simp [List.map_replicate, List.sum_replicate]
    have hcond : 0 < (if interOnsetIntervals a.onsets ≠ [] then
        (interOnsetIntervals a.onsets).sum /
          (interOnsetIntervals a.onsets).length else 0) ∧
        1 < (interOnsetIntervals a.onsets).length := by
      refine ⟨by rw [havg']; exact hc, ?_⟩
      have : (interOnsetIntervals a.onsets).length = k := by
        rw [hrep]; simp
      omega
    show (if _ ∧ _ then _ else _) = _
    rw [if_pos hcond]
    rw [havg', hvar]
    rw [zero_div, hsq, zero_div, add_zero, div_one]
    simp

/-- Witness for C7: ten onsets spaced exactly 0.5 s apart (and, for the
degenerate conjunct, the empty analysis). -/
theorem tempo_stability_spec_witness :
    (extract_rhythm_pattern sq0 evenA).tempo_stability = 1 ∧
    (extract_rhythm_pattern sq0 emptyA).tempo_stability = 0 := by
  constructor
  · exact (tempo_stability_spec sq0 evenA _ rfl).2.2.2 9 (1/2) rfl (by norm_num)
      (by norm_num) (by norm_num [evenA, interOnsetIntervals, List.replicate])
  · exact (tempo_stability_spec sq0 emptyA _ rfl).2.2.1 rfl

/-- Projection of `compare_recordings`: note accuracy. -/
theorem compare_recordings_note (l2 sq : ℚ → ℚ)
    (reference player : AnalysisResult) :
    (compare_recordings l2 sq reference player).note_accuracy =
      (compare_note_sequences l2 (extract_note_sequence l2 reference)
        (extract_note_sequence l2 player)).1 := rfl

/-- Projection of `compare_recordings`: pitch accuracy. -/
theorem compare_recordings_pitch (l2 sq : ℚ → ℚ)
    (reference player : AnalysisResult) :
    (compare_recordings l2 sq reference player).pitch_accuracy =
      calculate_pitch_accuracy
        (compare_note_sequences l2 (extract_note_sequence l2 reference)
          (extract_note_sequence l2 player)).2 := rfl

/-- Projection of `compare_recordings`: timing accuracy. -/
theorem compare_recordings_timing (l2 sq : ℚ → ℚ)
    (reference player : AnalysisResult) :
    (compare_recordings l2 sq reference player).timing_accuracy =
      (compare_timing (extract_note_sequence l2 reference)
        (extract_note_sequence l2 player)).1 := rfl

/-- Projection of `compare_recordings`: rhythm accuracy. -/
theorem compare_recordings_rhythm (l2 sq : ℚ → ℚ)
    (reference player : AnalysisResult) :
    (compare_recordings l2 sq reference player).rhythm_accuracy =
      compare_rhythm (extract_rhythm_pattern sq reference)
        (extract_rhythm_pattern sq player) := rfl

/-- Projection of `compare_recordings`: the weighted overall similarity. -/
theorem compare_recordings_overall (l2 sq : ℚ → ℚ)
    (reference player : AnalysisResult) :
    (compare_recordings l2 sq reference player).overall_similarity =
      3/10 * (compare_recordings l2 sq reference player).note_accuracy +
      25/100 * (compare_recordings l2 sq reference player).pitch_accuracy +
      25/100 * (compare_recordings l2 sq reference player).timing_accuracy +
      2/10 * (compare_recordings l2 sq reference player).rhythm_accuracy :=
  rfl

/-- The matched-note count never exceeds the number of reference notes. -/
theorem notesLoop_count_le (l2 : ℚ → ℚ) (player refs : List NoteSequence) :
    (notesLoop l2 player refs).1 ≤ refs.length := by
  induction refs with
  | nil => simp [notesLoop]
  | cons r rest ih =>
    simp only [notesLoop, List.length_cons]
    cases hc : closestPlayed player r with
    | none => exact le_trans ih (Nat.le_succ _)
    | some p =>
      by_cases hA : |p.start_time - r.start_time| ≤ 1/2
      · by_cases hB :
          |pitch_difference_cents l2 r.avg_pitch_hz p.avg_pitch_hz| ≤ 50
        · simp only [if_pos hA, if_pos hB]
          exact Nat.succ_le_succ ih
        · simp only [if_pos hA, if_neg hB]
          exact le_trans ih (Nat.le_succ _)
      · simp only [if_neg hA]
        exact le_trans ih (Nat.le_succ _)

/-- Each reference note contributes a non-negative timing amount. -/
theorem timingContribution_nonneg (player : List NoteSequence)
    (r : NoteSequence) : 0 ≤ timingContribution player r := by
  unfold timingContribution
  cases closestPlayed player r with
  | none => exact le_refl 0
  | some p =>
    show 0 ≤ if |p.start_time - r.start_time| ≤ 1/2 then
      |p.start_time - r.start_time| else 0
    split
    · exact abs_nonneg _
    · exact le_refl 0

/-- The accumulated timing error is non-negative. -/
theorem timingLoop_fst_nonneg (player refs : List NoteSequence) :
    0 ≤ (timingLoop player refs).1 := by
  rw [timingLoop_eq]
  apply List.sum_nonneg
  intro x hx
  obtain ⟨r, -, rfl⟩ := List.mem_map.mp hx
  exact timingContribution_nonneg player r

/-- Note accuracy lies in `[0, 1]`. -/
theorem compare_note_sequences_fst_bounds (l2 : ℚ → ℚ)
    (reference player : List NoteSequence) :
    0 ≤ (compare_note_sequences l2 reference player).1 ∧
    (compare_note_sequences l2 reference player).1 ≤ 1 := by
  unfold compare_note_sequences
  by_cases h : reference = [] ∨ player = []
  · rw [if_pos h]
    norm_num
  · rw [if_neg h]
    push_neg at h
    have hlen : 0 < reference.length := List.length_pos.mpr h.1
    have hlenq : (0 : ℚ) < reference.length := by exact_mod_cast hlen
    constructor
    · positivity
    · rw [div_le_one hlenq]
      exact_mod_cast notesLoop_count_le l2 player reference

/-- Pitch accuracy lies in `[0, 1]`. -/
theorem calculate_pitch_accuracy_bounds (pitch_errors : List PitchError) :
    0 ≤ calculate_pitch_accuracy pitch_errors ∧
    calculate_pitch_accuracy pitch_errors ≤ 1 := by
  unfold calculate_pitch_accuracy
  by_cases h : pitch_errors = []
  · rw [if_pos h]
    norm_num
  · rw [if_neg h]
    refine ⟨le_max_right _ _, max_le ?_ (by norm_num)⟩
    have hsum : 0 ≤ (pitch_errors.map (fun e => |e.cent_difference|)).sum :=
      List.sum_nonneg (by
        intro x hx
        obtain ⟨e, -, rfl⟩ := List.mem_map.mp hx
        exact abs_nonneg _)
    have : 0 ≤ (pitch_errors.map (fun e => |e.cent_difference|)).sum /
        (pitch_errors.length : ℚ) / 100 := by positivity
    linarith

/-- Timing accuracy lies in `[0, 1]`. -/
theorem compare_timing_fst_bounds (reference player : List NoteSequence) :
    0 ≤ (compare_timing reference player).1 ∧
    (compare_timing reference player).1 ≤ 1 := by
  unfold compare_timing
  by_cases h : reference = [] ∨ player = []
  · rw [if_pos h]
    norm_num
  · rw [if_neg h]
    refine ⟨le_max_right _ _, max_le ?_ (by norm_num)⟩
    have h1 : 0 ≤ (timingLoop player reference).1 :=
      timingLoop_fst_nonneg player reference
    have : 0 ≤ (timingLoop player reference).1 / (reference.length : ℚ) /
        (1/2) := by positivity
    linarith

/-- Tempo stability produced by the rhythm analyzer lies in `[0, 1]`,
provided the square-root primitive is non-negative on non-negative inputs
(as `f32::sqrt` is). -/
theorem tempo_stability_eq (sq : ℚ → ℚ) (a : AnalysisResult) :
    (extract_rhythm_pattern sq a).tempo_stability =
      if 0 < (extract_rhythm_pattern sq a).avg_interval ∧
          1 < (extract_rhythm_pattern sq a).inter_onset_intervals.length then
        min (1 / (1 +
          sq (((extract_rhythm_pattern sq a).inter_onset_intervals.map
            (fun x =>
              ((x - (extract_rhythm_pattern sq a).avg_interval) ^ 2 : ℚ))).sum /
            ((extract_rhythm_pattern sq a).inter_onset_intervals.length : ℚ)) /
          (extract_rhythm_pattern sq a).avg_interval)) 1
      else 0 := rfl

/-- Tempo stability produced by the rhythm analyzer lies in `[0, 1]`,
provided the square-root primitive is non-negative on non-negative inputs
(as `f32::sqrt` is). -/
theorem tempo_stability_bounds (sq : ℚ → ℚ)
    (hsq : ∀ x : ℚ, 0 ≤ x → 0 ≤ sq x) (a : AnalysisResult) :
    0 ≤ (extract_rhythm_pattern sq a).tempo_stability ∧
    (extract_rhythm_pattern sq a).tempo_stability ≤ 1 := by
  rw [tempo_stability_eq sq a]
  split
  · next hcond =>
    have hvar : 0 ≤ ((extract_rhythm_pattern sq a).inter_onset_intervals.map
        (fun x =>
          ((x - (extract_rhythm_pattern sq a).avg_interval) ^ 2 : ℚ))).sum /
        ((extract_rhythm_pattern sq a).inter_onset_intervals.length : ℚ) := by
      apply div_nonneg _ (Nat.cast_nonneg _)
      apply List.sum_nonneg
      intro x hx
      obtain ⟨e, -, rfl⟩ := List.mem_map.mp hx
      positivity
    have hcv : 0 ≤ sq (((extract_rhythm_pattern sq a).inter_onset_intervals.map
        (fun x =>
          ((x - (extract_rhythm_pattern sq a).avg_interval) ^ 2 : ℚ))).sum /
        ((extract_rhythm_pattern sq a).inter_onset_intervals.length : ℚ)) /
        (extract_rhythm_pattern sq a).avg_interval :=
      div_nonneg (hsq _ hvar) (le_of_lt hcond.1)
    constructor
    · refine le_min (div_nonneg (by norm_num) (by linarith)) (by norm_num)
    · exact min_le_right _ _
  · norm_num

/-- Rhythm accuracy lies in `[0, 1]` whenever both tempo stabilities do. -/
theorem compare_rhythm_bounds (reference player : RhythmPattern)
    (hr : 0 ≤ reference.tempo_stability ∧ reference.tempo_stability ≤ 1)
    (hp : 0 ≤ player.tempo_stability ∧ player.tempo_stability ≤ 1) :
    0 ≤ compare_rhythm reference player ∧
    compare_rhythm reference player ≤ 1 := by
  unfold compare_rhythm
  by_cases h : reference.inter_onset_intervals = [] ∨
      player.inter_onset_intervals = []
  · rw [if_pos h]
    norm_num
  · rw [if_neg h]
    have hm : (1/10 : ℚ) ≤ max reference.avg_interval (1/10) :=
      le_max_right _ _
    have hd : 0 ≤ |reference.avg_interval - player.avg_interval| /
        max reference.avg_interval (1/10) :=
      div_nonneg (abs_nonneg _) (by linarith)
    have hts0 : 0 ≤ max
        (1 - |reference.avg_interval - player.avg_interval| /
          max reference.avg_interval (1/10)) 0 := le_max_right _ _
    have hts1 : max
        (1 - |reference.avg_interval - player.avg_interval| /
          max reference.avg_interval (1/10)) 0 ≤ 1 :=
      max_le (by linarith) (by norm_num)
    have habs : |reference.tempo_stability - player.tempo_stability| ≤ 1 :=
      abs_le.mpr ⟨by linarith [hr.1, hr.2, hp.1, hp.2],
        by linarith [hr.1, hr.2, hp.1, hp.2]⟩
    have habs0 : 0 ≤ |reference.tempo_stability - player.tempo_stability| :=
      abs_nonneg _
    constructor <;> nlinarith [hts0, hts1, habs, habs0]

/-- C2: all four component scores and the weighted overall similarity
returned by `compare_recordings` lie in `[0, 1]`, for every input pair (the
square-root primitive is assumed non-negative on non-negative inputs, as
`f32::sqrt` is). -/
theorem compare_recordings_scores_bounded (l2 sq : ℚ → ℚ)
    (hsq : ∀ x : ℚ, 0 ≤ x → 0 ≤ sq x) (reference player : AnalysisResult)
    (M : ComparisonMetrics)
    (hM : M = compare_recordings l2 sq reference player) :
    (0 ≤ M.note_accuracy ∧ M.note_accuracy ≤ 1) ∧
    (0 ≤ M.pitch_accuracy ∧ M.pitch_accuracy ≤ 1) ∧
    (0 ≤ M.timing_accuracy ∧ M.timing_accuracy ≤ 1) ∧
    (0 ≤ M.rhythm_accuracy ∧ M.rhythm_accuracy ≤ 1) ∧
    (0 ≤ M.overall_similarity ∧ M.overall_similarity ≤ 1) := by
  subst hM
  have hna := compare_note_sequences_fst_bounds l2
    (extract_note_sequence l2 reference) (extract_note_sequence l2 player)
  have hpa := calculate_pitch_accuracy_bounds
    (compare_note_sequences l2 (extract_note_sequence l2 reference)
      (extract_note_sequence l2 player)).2
  have hta := compare_timing_fst_bounds (extract_note_sequence l2 reference)
    (extract_note_sequence l2 player)
  have hra := compare_rhythm_bounds (extract_rhythm_pattern sq reference)
    (extract_rhythm_pattern sq player)
    (tempo_stability_bounds sq hsq reference)
    (tempo_stability_bounds sq hsq player)
  rw [compare_recordings_note] at *
  refine ⟨hna, hpa, hta, hra, ?_⟩
  rw [compare_recordings_overall, compare_recordings_note,
    compare_recordings_pitch, compare_recordings_timing,
    compare_recordings_rhythm]
  constructor <;>
    linarith [hna.1, hna.2, hpa.1, hpa.2, hta.1, hta.2, hra.1, hra.2]

/-- Witness for C2 at a concrete comparison of `goodA` against `evenA`. -/
theorem compare_recordings_scores_bounded_witness :
    0 ≤ (compare_recordings l20 sq0 goodA evenA).overall_similarity ∧
    (compare_recordings l20 sq0 goodA evenA).overall_similarity ≤ 1 :=
  (compare_recordings_scores_bounded l20 sq0
    (fun x _ => le_refl 0) goodA evenA _ rfl).2.2.2.2

/-- Projection of `compare_recordings`: pitch errors. -/
theorem compare_recordings_pitch_errors (l2 sq : ℚ → ℚ)
    (reference player : AnalysisResult) :
    (compare_recordings l2 sq reference player).pitch_errors =
      (compare_note_sequences l2 (extract_note_sequence l2 reference)
        (extract_note_sequence l2 player)).2 := rfl

/-- Projection of `compare_recordings`: timing errors. -/
theorem compare_recordings_timing_errors (l2 sq : ℚ → ℚ)
    (reference player : AnalysisResult) :
    (compare_recordings l2 sq reference player).timing_errors =
      (compare_timing (extract_note_sequence l2 reference)
        (extract_note_sequence l2 player)).2 := rfl

/-- Projection of `compare_recordings`: missed notes. -/
theorem compare_recordings_missed (l2 sq : ℚ → ℚ)
    (reference player : AnalysisResult) :
    (compare_recordings l2 sq reference player).missed_notes =
      (find_note_differences (extract_note_sequence l2 reference)
        (extract_note_sequence l2 player)).1 := rfl

/-- Projection of `compare_recordings`: extra notes. -/
theorem compare_recordings_extra (l2 sq : ℚ → ℚ)
    (reference player : AnalysisResult) :
    (compare_recordings l2 sq reference player).extra_notes =
      (find_note_differences (extract_note_sequence l2 reference)
        (extract_note_sequence l2 player)).2 := rfl

/-- The rhythm pattern's interval field is the adjacent difference list. -/
theorem extract_rhythm_pattern_intervals (sq : ℚ → ℚ) (a : AnalysisResult) :
    (extract_rhythm_pattern sq a).inter_onset_intervals =
      interOnsetIntervals a.onsets := rfl

/-- C1 (amended): the engine never fails — when both extracted note sequences
are empty every result is the defined degenerate value: note and timing
accuracies `0.0` and all four error collections empty, while
`pitch_accuracy` is `1.0` (the pitch-error list is empty and an empty error
list scores `1.0`, not the claimed `0.0`); the overall similarity collapses
to `1/4 + 0.2·rhythm_accuracy`, hence exactly `1/4` when the reference has
no inter-onset intervals either. -/
theorem compare_recordings_empty_defined (l2 sq : ℚ → ℚ)
    (reference player : AnalysisResult)
    (href : extract_note_sequence l2 reference = [])
    (hply : extract_note_sequence l2 player = []) :
    (compare_recordings l2 sq reference player).note_accuracy = 0 ∧
    (compare_recordings l2 sq reference player).timing_accuracy = 0 ∧
    (compare_recordings l2 sq reference player).pitch_accuracy = 1 ∧
    (compare_recordings l2 sq reference player).pitch_errors = [] ∧
    (compare_recordings l2 sq reference player).timing_errors = [] ∧
    (compare_recordings l2 sq reference player).missed_notes = [] ∧
    (compare_recordings l2 sq reference player).extra_notes = [] ∧
    (compare_recordings l2 sq reference player).overall_similarity =
      1/4 + 2/10 *
        (compare_recordings l2 sq reference player).rhythm_accuracy ∧
    (interOnsetIntervals reference.onsets = [] →
      (compare_recordings l2 sq reference player).rhythm_accuracy = 0 ∧
      (compare_recordings l2 sq reference player).overall_similarity =
        1/4) := by
  have hns : compare_note_sequences l2 (extract_note_sequence l2 reference)
      (extract_note_sequence l2 player) = (0, []) := by
    rw [href, hply]
    rfl
  have hts : compare_timing (extract_note_sequence l2 reference)
      (extract_note_sequence l2 player) = (0, []) := by
    rw [href, hply]
    rfl
  have hdf : find_note_differences (extract_note_sequence l2 reference)
      (extract_note_sequence l2 player) = ([], []) := by
    rw [href, hply]
    rfl
  have hna : (compare_recordings l2 sq reference player).note_accuracy = 0 :=
    by rw [compare_recordings_note, hns]
  have hta :
      (compare_recordings l2 sq reference player).timing_accuracy = 0 := by
    rw [compare_recordings_timing, hts]
  have hpa :
      (compare_recordings l2 sq reference player).pitch_accuracy = 1 := by
    rw [compare_recordings_pitch, hns]
    rfl
  have hov : (compare_recordings l2 sq reference player).overall_similarity =
      1/4 + 2/10 *
        (compare_recordings l2 sq reference player).rhythm_accuracy := by
    rw [compare_recordings_overall, hna, hta, hpa]
    ring
  refine ⟨hna, hta, hpa,
    by rw [compare_recordings_pitch_errors, hns],
    by rw [compare_recordings_timing_errors, hts],
    by rw [compare_recordings_missed, hdf],
    by rw [compare_recordings_extra, hdf],
    hov, ?_⟩
  intro hie
  have hra :
      (compare_recordings l2 sq reference player).rhythm_accuracy = 0 := by
    rw [compare_recordings_rhythm]
    unfold compare_rhythm
    rw [if_pos (Or.inl (by rw [extract_rhythm_pattern_intervals, hie]))]
  exact ⟨hra, by rw [hov, hra]; ring⟩

/-- Witness for C1 (amended) at the fully empty analysis pair. -/
theorem compare_recordings_empty_defined_witness :
    (compare_recordings l20 sq0 emptyA emptyA).note_accuracy = 0 ∧
    (compare_recordings l20 sq0 emptyA emptyA).timing_accuracy = 0 ∧
    (compare_recordings l20 sq0 emptyA emptyA).pitch_accuracy = 1 ∧
    (compare_recordings l20 sq0 emptyA emptyA).pitch_errors = [] ∧
    (compare_recordings l20 sq0 emptyA emptyA).timing_errors = [] ∧
    (compare_recordings l20 sq0 emptyA emptyA).missed_notes = [] ∧
    (compare_recordings l20 sq0 emptyA emptyA).extra_notes = [] ∧
    (compare_recordings l20 sq0 emptyA emptyA).overall_similarity =
      1/4 + 2/10 *
        (compare_recordings l20 sq0 emptyA emptyA).rhythm_accuracy ∧
    (interOnsetIntervals emptyA.onsets = [] →
      (compare_recordings l20 sq0 emptyA emptyA).rhythm_accuracy = 0 ∧
      (compare_recordings l20 sq0 emptyA emptyA).overall_similarity =
        1/4) :=
  compare_recordings_empty_defined l20 sq0 emptyA emptyA rfl rfl

/-- Every note emitted by the segmenter loop lasts at least the 100 ms
minimum duration (the guard on both emission sites). -/
theorem extractGo_duration (l2 : ℚ → ℚ) (times : ℕ → ℚ) :
    ∀ (l : List (ℕ × ℚ)) (st : SegState) (n : NoteSequence),
      n ∈ (extractGo l2 times l st).2 → 1/10 ≤ n.duration := by
  intro l
  induction l with
  | nil =>
    intro st n hn
    simp [extractGo] at hn
  | cons head rest ih =>
    intro st n hn
    obtain ⟨i, hz⟩ := head
    cases st with
    | none =>
      cases hmid : hz_to_midi l2 hz with
      | none =>
        simp only [extractGo, hmid] at hn
        exact ih _ n hn
      | some m =>
        simp only [extractGo, hmid] at hn
        exact ih _ n hn
    | some trip =>
      obtain ⟨m0, cs, ps⟩ := trip
      cases hmid : hz_to_midi l2 hz with
      | none =>
        simp only [extractGo, hmid] at hn
        exact ih _ n hn
      | some m =>
        simp only [extractGo, hmid] at hn
        by_cases hnear : ((m : ℤ) - (m0 : ℤ)).natAbs ≤ 1
        · rw [if_pos hnear] at hn
          exact ih _ n hn
        · rw [if_neg hnear] at hn
          by_cases hdur : 1/10 ≤ times i - cs
          · rw [if_pos hdur] at hn
            rcases List.mem_cons.mp hn with rfl | hn
            · exact hdur
            · exact ih _ n hn
          · rw [if_neg hdur] at hn
            exact ih _ n hn

/-- C3 (amended): every `NoteSequence` the segmenter emits has
`duration ≥ 100 ms`, in particular `duration > 0`; the second half of the
claimed invariant fails because `midi_note` keeps the pre-transition MIDI
value instead of being recomputed from `avg_pitch_hz` (see the
counterexample). -/
theorem extract_note_duration_pos (l2 : ℚ → ℚ) (a : AnalysisResult)
    (n : NoteSequence) (hn : n ∈ extract_note_sequence l2 a) :
    1/10 ≤ n.duration ∧ 0 < n.duration := by
  have hd : 1/10 ≤ n.duration := by
    unfold extract_note_sequence at hn
    split at hn
    · simp at hn
    · simp only [] at hn
      cases hst : (extractGo l2 (sampleTime a) a.pitch_hz.enum none).1 with
      | none =>
        cases hlast : a.onsets.getLast? with
        | none =>
          rw [hst, hlast] at hn
          exact extractGo_duration l2 _ _ _ n hn
        | some last =>
          rw [hst, hlast] at hn
          exact extractGo_duration l2 _ _ _ n hn
      | some trip =>
        obtain ⟨m0, cs, ps⟩ := trip
        cases hlast : a.onsets.getLast? with
        | none =>
          rw [hst, hlast] at hn
          exact extractGo_duration l2 _ _ _ n hn
        | some last =>
          rw [hst, hlast] at hn
          simp only [] at hn
          by_cases hcond : 1/10 ≤ last - cs ∧ ps ≠ []
          · rw [if_pos hcond] at hn
            rcases List.mem_append.mp hn with hn | hn
            · exact extractGo_duration l2 _ _ _ n hn
            · rcases List.mem_singleton.mp hn with rfl
              exact hcond.1
          · rw [if_neg hcond] at hn
            exact extractGo_duration l2 _ _ _ n hn
  exact ⟨hd, by linarith⟩

/-- Witness for C3 (amended): the single note extracted from `goodA`. -/
theorem extract_note_duration_pos_witness :
    1/10 ≤ goodNote.duration ∧ 0 < goodNote.duration :=
  extract_note_duration_pos l20 goodA goodNote
    (by
      have he : extract_note_sequence l20 goodA = [goodNote] := by
        norm_num [extract_note_sequence, extractGo, sampleTime, mkNote,
          hz_to_midi, rustRound, midi_to_note_name, note_names, l20, goodA,
          goodNote, Int.floor_eq_iff, List.enum, List.enumFrom, List.getD,
          List.cons_ne_nil, Int.toNat_ofNat]
        decide
      rw [he]
      exact List.mem_singleton.mpr rfl)

/-- Indices produced by `enumFrom` are bounded below by the start index. -/
theorem mem_enumFrom_bounds {α : Type} :
    ∀ (l : List α) (k : ℕ) (p : ℕ × α), p ∈ List.enumFrom k l →
      k ≤ p.1 ∧ p.1 < k + l.length := by
  intro l
  induction l with
  | nil => intro k p hp; simp [List.enumFrom] at hp
  | cons a t ih =>
    intro k p hp
    rcases List.mem_cons.mp hp with rfl | hp
    · simp
    · have := ih (k + 1) p hp
      constructor <;> [omega; (simp only [List.length_cons]; omega)]

/-- The indices along `enumFrom` are strictly increasing. -/
theorem enumFrom_pairwise_lt {α : Type} :
    ∀ (l : List α) (k : ℕ),
      (List.enumFrom k l).Pairwise (fun p q => p.1 < q.1) := by
  intro l
  induction l with
  | nil => intro k; simp [List.enumFrom]
  | cons a t ih =>
    intro k
    refine List.Pairwise.cons ?_ (ih (k + 1))
    intro q hq
    have := (mem_enumFrom_bounds t (k + 1) q hq).1
    omega

/-- When the per-sample times are monotone on the pitch indices, the
enumerated pitch list is pairwise time-ordered. -/
theorem enum_times_pairwise (a : AnalysisResult)
    (Hmono : ∀ i j : ℕ, i ≤ j → j < a.pitch_hz.length →
      sampleTime a i ≤ sampleTime a j) :
    a.pitch_hz.enum.Pairwise
      (fun p q => sampleTime a p.1 ≤ sampleTime a q.1) := by
  have hp : a.pitch_hz.enum.Pairwise (fun p q => p.1 < q.1) :=
    enumFrom_pairwise_lt a.pitch_hz 0
  refine List.Pairwise.imp_of_mem ?_ hp
  intro p q hpm hqm hlt
  have hb := mem_enumFrom_bounds a.pitch_hz 0 q hqm
  exact Hmono p.1 q.1 (le_of_lt hlt) (by omega)

/-- Separation invariant of the segmenter loop run from an open note: with
monotone sample times, the emitted notes start at least 100 ms apart (in
order), none starts before the open note, and whatever note is still open at
the end starts at least 100 ms after each emitted one. -/
theorem extractGo_sep (l2 : ℚ → ℚ) (times : ℕ → ℚ) :
    ∀ (l : List (ℕ × ℚ)) (m0 : ℕ) (s : ℚ) (ps : List ℚ),
      (∀ p ∈ l, s ≤ times p.1) →
      l.Pairwise (fun p q => times p.1 ≤ times q.1) →
      (extractGo l2 times l (some (m0, s, ps))).2.Pairwise sep ∧
      (∀ n ∈ (extractGo l2 times l (some (m0, s, ps))).2,
        s ≤ n.start_time) ∧
      (∀ m' s' ps',
        (extractGo l2 times l (some (m0, s, ps))).1 = some (m', s', ps') →
        s ≤ s' ∧ ∀ n ∈ (extractGo l2 times l (some (m0, s, ps))).2,
          n.start_time + 1/10 ≤ s') := by
  intro l
  induction l with
  | nil =>
    intro m0 s ps _ _
    refine ⟨List.Pairwise.nil, by simp [extractGo], ?_⟩
    intro m' s' ps' hst
    simp only [extractGo, Option.some.injEq, Prod.mk.injEq] at hst
    obtain ⟨-, h2, -⟩ := hst
    exact ⟨le_of_eq h2, by simp [extractGo]⟩
  | cons head rest ih =>
    intro m0 s ps hfut hpair
    obtain ⟨i, hz⟩ := head
    have hstime : s ≤ times i := hfut (i, hz) (List.mem_cons_self _ _)
    rw [List.pairwise_cons] at hpair
    obtain ⟨hhead, hptail⟩ := hpair
    have hfut_tail : ∀ p ∈ rest, s ≤ times p.1 :=
      fun p hp => hfut p (List.mem_cons_of_mem _ hp)
    cases hmid : hz_to_midi l2 hz with
    | none =>
      simp only [extractGo, hmid]
      exact ih m0 s ps hfut_tail hptail
    | some m =>
      by_cases hnear : ((m : ℤ) - (m0 : ℤ)).natAbs ≤ 1
      · simp only [extractGo, hmid, if_pos hnear]
        exact ih m0 s (ps ++ [hz]) hfut_tail hptail
      · have ih' := ih m (times i) [hz]
          (fun p hp => hhead p hp) hptail
        obtain ⟨ihPw, ihStart, ihState⟩ := ih'
        by_cases hdur : 1/10 ≤ times i - s
        · simp only [extractGo, hmid, if_neg hnear, if_pos hdur]
          refine ⟨?_, ?_, ?_⟩
          · refine List.Pairwise.cons ?_ ihPw
            intro n hn
            have := ihStart n hn
            show (mkNote m0 s (times i) ps).start_time + 1/10 ≤
              n.start_time
            show s + 1/10 ≤ n.start_time
            linarith
          · intro n hn
            rcases List.mem_cons.mp hn with rfl | hn
            · exact le_refl _
            · have := ihStart n hn
              linarith
          · intro m' s' ps' hst
            obtain ⟨hle, hall⟩ := ihState m' s' ps' hst
            refine ⟨by linarith, ?_⟩
            intro n hn
            rcases List.mem_cons.mp hn with rfl | hn
            · show s + 1/10 ≤ s'
              linarith
            · exact hall n hn
        · simp only [extractGo, hmid, if_neg hnear, if_neg hdur]
          refine ⟨ihPw, ?_, ?_⟩
          · intro n hn
            have := ihStart n hn
            linarith
          · intro m' s' ps' hst
            obtain ⟨hle, hall⟩ := ihState m' s' ps' hst
            exact ⟨by linarith, hall⟩

/-- Separation of the segmenter loop run from the idle state. -/
theorem extractGo_sep_none (l2 : ℚ → ℚ) (times : ℕ → ℚ) :
    ∀ l : List (ℕ × ℚ),
      l.Pairwise (fun p q => times p.1 ≤ times q.1) →
      (extractGo l2 times l none).2.Pairwise sep ∧
      (∀ m' s' ps', (extractGo l2 times l none).1 = some (m', s', ps') →
        ∀ n ∈ (extractGo l2 times l none).2,
          n.start_time + 1/10 ≤ s') := by
  intro l
  induction l with
  | nil =>
    intro _
    refine ⟨List.Pairwise.nil, ?_⟩
    intro m' s' ps' hst
    simp [extractGo] at hst
  | cons head rest ih =>
    intro hpair
    obtain ⟨i, hz⟩ := head
    rw [List.pairwise_cons] at hpair
    obtain ⟨hhead, hptail⟩ := hpair
    cases hmid : hz_to_midi l2 hz with
    | none =>
      simp only [extractGo, hmid]
      exact ih hptail
    | some m =>
      simp only [extractGo, hmid]
      obtain ⟨hPw, -, hState⟩ := extractGo_sep l2 times rest m (times i) [hz]
        (fun p hp => hhead p hp) hptail
      exact ⟨hPw, fun m' s' ps' hst => (hState m' s' ps' hst).2⟩

/-- The notes extracted from an analysis with monotone sample times start
pairwise at least 100 ms apart, in order. -/
theorem extract_sep (l2 : ℚ → ℚ) (a : AnalysisResult)
    (Hmono : ∀ i j : ℕ, i ≤ j → j < a.pitch_hz.length →
      sampleTime a i ≤ sampleTime a j) :
    (extract_note_sequence l2 a).Pairwise sep := by
  have hpair := enum_times_pairwise a Hmono
  obtain ⟨hPw, hState⟩ :=
    extractGo_sep_none l2 (sampleTime a) a.pitch_hz.enum hpair
  unfold extract_note_sequence
  split
  · exact List.Pairwise.nil
  · simp only []
    cases hst : (extractGo l2 (sampleTime a) a.pitch_hz.enum none).1 with
    | none =>
      cases hlast : a.onsets.getLast? with
      | none => exact hPw
      | some last => exact hPw
    | some trip =>
      obtain ⟨m0, cs, ps⟩ := trip
      cases hlast : a.onsets.getLast? with
      | none => exact hPw
      | some last =>
        simp only []
        by_cases hcond : 1/10 ≤ last - cs ∧ ps ≠ []
        · rw [if_pos hcond]
          rw [List.pairwise_append]
          refine ⟨hPw, List.pairwise_singleton _ _, ?_⟩
          intro n hn b hb
          rcases List.mem_singleton.mp hb with rfl
          show n.start_time + 1/10 ≤ cs
          exact hState m0 cs ps hst n hn
        · rw [if_neg hcond]
          exact hPw

/-- In a 100 ms-separated note list, two members within 100 ms of each other
are equal. -/
theorem pairwise_sep_unique (notes : List NoteSequence)
    (h : notes.Pairwise sep) (r : NoteSequence) (hr : r ∈ notes)
    (x : NoteSequence) (hx : x ∈ notes)
    (hclose : |x.start_time - r.start_time| < 1/10) : x = r := by
  induction notes with
  | nil => cases hr
  | cons a t ih =>
    rw [List.pairwise_cons] at h
    rcases List.mem_cons.mp hr with rfl | hr' <;>
      rcases List.mem_cons.mp hx with rfl | hx'
    · rfl
    · exfalso
      have hs := h.1 x hx'
      have : x.start_time - r.start_time ≤ |x.start_time - r.start_time| :=
        le_abs_self _
      unfold sep at hs
      linarith
    · exfalso
      have hs := h.1 r hr'
      have : -(x.start_time - r.start_time) ≤
          |x.start_time - r.start_time| := neg_le_abs _
      unfold sep at hs
      linarith
    · exact ih h.2 hr' hx'

/-- In a 100 ms-separated list every note is its own nearest match: any other
note is at least 100 ms away, so only the note itself attains the millisecond
key `0`. -/
theorem sep_closest_self (notes : List NoteSequence)
    (hsep : notes.Pairwise sep) (r : NoteSequence) (hr : r ∈ notes) :
    closestPlayed notes r = some r := by
  obtain ⟨x, hx⟩ := minByKey_isSome (msKey r) notes (List.ne_nil_of_mem hr)
  have hxmem := minByKey_mem _ _ _ hx
  have hxmin := minByKey_min _ _ _ hx r hr
  have hkey_rr : msKey r r = 0 := by
    unfold msKey castI32
    norm_num
  have hkey_nonneg : 0 ≤ msKey r x := by
    unfold msKey castI32
    have h0 : (0 : ℤ) ≤ ⌊|x.start_time - r.start_time| * 1000⌋ :=
      Int.le_floor.mpr (by positivity)
    exact le_min h0 (by norm_num)
  have hxkey : msKey r x = 0 :=
    le_antisymm (hkey_rr ▸ hxmin) hkey_nonneg
  have hfloor : ⌊|x.start_time - r.start_time| * 1000⌋ = 0 := by
    unfold msKey castI32 at hxkey
    rcases min_eq_iff.mp hxkey with ⟨h1, -⟩ | ⟨h1, -⟩
    · exact h1
    · exact absurd h1 (by norm_num)
  have hclose : |x.start_time - r.start_time| < 1/10 := by
    have h1 : |x.start_time - r.start_time| * 1000 < 1 := by
      have := Int.lt_floor_add_one (|x.start_time - r.start_time| * 1000)
      rw [hfloor] at this
      simpa using this
    linarith
  have hxr : x = r := pairwise_sep_unique notes hsep r hr x hxmem hclose
  show minByKey (msKey r) notes = some r
  rw [hx, hxr]

/-- Over a separated self-comparison every reference note matches itself with
zero cent difference, so the loop counts every note and records no error
(uses `l2 1 = 0`, exact for `f32::log2`). -/
theorem notesLoop_self (l2 : ℚ → ℚ) (hl2 : l2 1 = 0)
    (notes : List NoteSequence) :
    ∀ refs : List NoteSequence,
      (∀ r ∈ refs, closestPlayed notes r = some r) →
      notesLoop l2 notes refs = (refs.length, []) := by
  intro refs
  induction refs with
  | nil => intro _; rfl
  | cons r rest ih =>
    intro hsel
    have hc := hsel r (List.mem_cons_self _ _)
    have hrest := ih (fun q hq => hsel q (List.mem_cons_of_mem _ hq))
    have hcent : pitch_difference_cents l2 r.avg_pitch_hz r.avg_pitch_hz =
        0 := by
      unfold pitch_difference_cents
      by_cases hp : r.avg_pitch_hz ≤ 0
      · rw [if_pos (Or.inl hp)]
      · rw [if_neg (by push_neg; exact ⟨not_le.mp hp, not_le.mp hp⟩),
          div_self (ne_of_gt (not_le.mp hp)), hl2, mul_zero]
    simp only [notesLoop, hc, hrest, sub_self, abs_zero, hcent]
    rw [if_pos (by norm_num), if_pos (by norm_num)]
    simp

/-- Over a separated self-comparison the timing loop accumulates zero error
and records nothing. -/
theorem timingLoop_self (notes : List NoteSequence) :
    ∀ refs : List NoteSequence,
      (∀ r ∈ refs, closestPlayed notes r = some r) →
      timingLoop notes refs = (0, []) := by
  intro refs
  induction refs with
  | nil => intro _; rfl
  | cons r rest ih =>
    intro hsel
    have hc := hsel r (List.mem_cons_self _ _)
    have hrest := ih (fun q hq => hsel q (List.mem_cons_of_mem _ hq))
    simp only [timingLoop, hc, hrest, sub_self, abs_zero]
    rw [if_pos (by norm_num), if_neg (by norm_num)]
    simp

/-- A list with at least two entries has a non-empty adjacent-difference
list. -/
theorem interOnsetIntervals_ne_nil (l : List ℚ) (h : 2 ≤ l.length) :
    interOnsetIntervals l ≠ [] := by
  match l, h with
  | a :: b :: rest, _ => simp [interOnsetIntervals]

/-- C6 (amended): when the per-sample time sequence is non-decreasing (the
input contract: sorted onsets, covering the pitch list), comparing an
analysis with a non-empty note sequence and at least two onsets against
itself scores above 0.95 — in fact every component is exactly 1 — with no
missed and no extra notes.  Uses `l2 1 = 0`, exact for `f32::log2`. -/
theorem self_comparison_similarity (l2 sq : ℚ → ℚ) (a : AnalysisResult)
    (hl2 : l2 1 = 0)
    (Hmono : ∀ i j : ℕ, i ≤ j → j < a.pitch_hz.length →
      sampleTime a i ≤ sampleTime a j)
    (hne : extract_note_sequence l2 a ≠ [])
    (h2 : 2 ≤ a.onsets.length) :
    19/20 < (compare_recordings l2 sq a a).overall_similarity ∧
    (compare_recordings l2 sq a a).missed_notes = [] ∧
    (compare_recordings l2 sq a a).extra_notes = [] := by
  have hsep := extract_sep l2 a Hmono
  have hsel : ∀ r ∈ extract_note_sequence l2 a,
      closestPlayed (extract_note_sequence l2 a) r = some r :=
    fun r hr => sep_closest_self _ hsep r hr
  have hlenq : (0 : ℚ) < (extract_note_sequence l2 a).length := by
    exact_mod_cast List.length_pos.mpr hne
  have hns : compare_note_sequences l2 (extract_note_sequence l2 a)
      (extract_note_sequence l2 a) = (1, []) := by
    unfold compare_note_sequences
    rw [if_neg (by simp [hne]), notesLoop_self l2 hl2 _ _ hsel]
    simp only [Prod.mk.injEq]
    exact ⟨div_self (ne_of_gt hlenq), trivial⟩
  have hts : compare_timing (extract_note_sequence l2 a)
      (extract_note_sequence l2 a) = (1, []) := by
    unfold compare_timing
    rw [if_neg (by simp [hne]), timingLoop_self _ _ hsel]
    norm_num
  have hint : (extract_rhythm_pattern sq a).inter_onset_intervals ≠ [] := by
    rw [extract_rhythm_pattern_intervals]
    exact interOnsetIntervals_ne_nil a.onsets h2
  have hra : compare_rhythm (extract_rhythm_pattern sq a)
      (extract_rhythm_pattern sq a) = 1 := by
    unfold compare_rhythm
    rw [if_neg (by simp [hint])]
    simp only [sub_self, abs_zero, zero_div, sub_zero]
    rw [max_eq_left (by norm_num : (0:ℚ) ≤ 1)]
    norm_num
  have hmissed : find_note_differences (extract_note_sequence l2 a)
      (extract_note_sequence l2 a) = ([], []) := by
    unfold find_note_differences
    simp only [Prod.mk.injEq]
    constructor <;>
      (rw [List.map_eq_nil_iff, List.filter_eq_nil_iff]
       intro b hb
       simp only [decide_eq_true_eq, not_not, List.any_eq_true]
       exact ⟨b, hb, by norm_num, rfl⟩)
  refine ⟨?_, ?_, ?_⟩
  · rw [compare_recordings_overall, compare_recordings_note,
      compare_recordings_pitch, compare_recordings_timing,
      compare_recordings_rhythm, hns, hts, hra]
    norm_num [calculate_pitch_accuracy]
  · rw [compare_recordings_missed, hmissed]
  · rw [compare_recordings_extra, hmissed]

/-- Witness for C6 (amended) at the concrete analysis `goodA` (sorted onsets,
one extracted note). -/
theorem self_comparison_similarity_witness :
    19/20 < (compare_recordings l20 sq0 goodA goodA).overall_similarity ∧
    (compare_recordings l20 sq0 goodA goodA).missed_notes = [] ∧
    (compare_recordings l20 sq0 goodA goodA).extra_notes = [] := by
  have he : extract_note_sequence l20 goodA = [goodNote] := by
    norm_num [extract_note_sequence, extractGo, sampleTime, mkNote,
      hz_to_midi, rustRound, midi_to_note_name, note_names, l20, goodA,
      goodNote, Int.floor_eq_iff, List.enum, List.enumFrom, List.getD,
      List.cons_ne_nil, Int.toNat_ofNat]
    decide
  refine self_comparison_similarity l20 sq0 goodA rfl ?_ ?_ ?_
  · intro i j hij hj
    have hj3 : j < 3 := by simpa [goodA] using hj
    interval_cases j <;> interval_cases i <;>
      norm_num [sampleTime, goodA]
  · rw [he]
    simp
  · norm_num [goodA]

end AudioAI
